import Mathlib

/-!
Verification of the Kubernetes watch-api client (`src/common/kube-helpers.ts`,
class `KubeWatchApi`).

The definitions below are a shallow embedding of the source.  External
collaborators that are not part of the repository's `src/` tree
(`kube-api.ts`, `api-manager.ts`, the namespace store, the cluster
authorization check, the platform `JSON.parse` and `fetch`) are either
modelled from the spec (their doc comments say so) or passed in as explicit
oracle parameters.
-/

set_option maxHeartbeats 1000000
set_option linter.unusedSectionVars false

namespace KubeWatch

/-! ## Data model -/

/-- Object metadata carried by a wire event's `object` field.  `ns` models the
`metadata.namespace` field (namespace is a Lean keyword). -/
structure KubeObjectMetadata where
  name : String
  ns : String
  resourceVersion : String
  selfLink : Option String := none
deriving DecidableEq, Repr

/-- The payload object of a data event (`KubeJsonApiData`). -/
structure KubeJsonApiData where
  kind : String
  apiVersion : String
  metadata : KubeObjectMetadata
deriving DecidableEq, Repr

/-- The payload of a server-reported error event (`KubeJsonApiError`). -/
structure KubeJsonApiError where
  code : Nat := 0
  message : String := ""
deriving DecidableEq, Repr

/-- Modelled from the spec: the wire record shape
`{ type: "ADDED"|"MODIFIED"|"DELETED"|"ERROR"|"STREAM_END", object?, url? }`
(`IKubeWatchEvent` from `watch-route.ts`, which is not in `src/`).
`unknown` covers records whose `type` tag is none of the five known kinds. -/
inductive KubeWatchEvent where
  | added (object : KubeJsonApiData)
  | modified (object : KubeJsonApiData)
  | deleted (object : KubeJsonApiData)
  | errorEvent (error : KubeJsonApiError)
  | streamEnd (url : String)
  | unknown (tag : String)
deriving DecidableEq, Repr

/-- The object attached to a data event, if any. -/
def eventObject : KubeWatchEvent → Option KubeJsonApiData
  | .added o | .modified o | .deleted o => some o
  | _ => none

/-- Replace the object of a data event (models the in-place mutation performed
by `ensureObjectSelfLink` on `data.object`). -/
def KubeWatchEvent.withObject : KubeWatchEvent → KubeJsonApiData → KubeWatchEvent
  | .added _, o => .added o
  | .modified _, o => .modified o
  | .deleted _, o => .deleted o
  | e, _ => e

/-- Modelled from the spec: a resource-type handler (`KubeApi` from
`kube-api.ts`, not in `src/`): it knows its kind, group/version, whether it is
namespace-scoped, and records observed resource versions per namespace
(the ResourceVersionTracker entry keyed by namespace-or-empty). -/
structure KubeApi where
  kind : String
  apiVersion : String
  apiBase : String
  isNamespaced : Bool
  resourceVersions : List (String × String) := []
deriving DecidableEq, Repr

/-- Assoc-list update used by the resource-version cursor store: overwrite the
entry for the key, appending it when absent. -/
def setRV : List (String × String) → String → String → List (String × String)
  | [], ns, v => [(ns, v)]
  | p :: t, ns, v => if p.1 = ns then (ns, v) :: t else p :: setRV t ns v

/-- Assoc-list lookup for the resource-version cursor store. -/
def getRV : List (String × String) → String → Option String
  | [], _ => none
  | p :: t, ns => if p.1 = ns then some p.2 else getRV t ns

/-- Modelled from the spec: `api.setResourceVersion(namespace, version)` —
record an observed resource version under a namespace key (empty string for
the aggregate all-namespaces cursor). -/
def KubeApi.setResourceVersion (api : KubeApi) (ns version : String) : KubeApi :=
  { api with resourceVersions := setRV api.resourceVersions ns version }

/-- Read back a recorded resource-version cursor. -/
def KubeApi.getResourceVersion (api : KubeApi) (ns : String) : Option String :=
  getRV api.resourceVersions ns

/-- Modelled from the spec: `api.getWatchUrl(namespace?)` builds the
fully-qualified watch URL for a target, including the namespace for
namespace-scoped targets. -/
def KubeApi.getWatchUrl (api : KubeApi) (ns : Option String) : String :=
  match ns with
  | some n => api.apiBase ++ "?watch=1&namespace=" ++ n
  | none => api.apiBase ++ "?watch=1"

/-- Modelled from the spec: `ensureObjectSelfLink(api, object)` normalizes the
object by ensuring a canonical self-link field is present. -/
def ensureObjectSelfLink (api : KubeApi) (obj : KubeJsonApiData) : KubeJsonApiData :=
  match obj.metadata.selfLink with
  | some _ => obj
  | none =>
    { obj with metadata := { obj.metadata with
        selfLink := some (api.apiBase ++ "/" ++ obj.metadata.name) } }

/-- Modelled from the spec: the resource-type registry collaborator
(`api-manager.ts`, not in `src/`): registered handlers plus a map from a
handler's base URL to its store. -/
structure ApiManagerState where
  apis : List KubeApi
  stores : List (String × String) := []
deriving DecidableEq, Repr

/-- `apiManager.getApiByKind(kind, apiVersion)` over a plain handler list. -/
def getApiByKindList (l : List KubeApi) (kind apiVersion : String) : Option KubeApi :=
  l.find? (fun a => a.kind == kind && a.apiVersion == apiVersion)

/-- Modelled from the spec: `apiManager.getApiByKind(kind, apiVersion)` —
resolve the registered handler for a (kind, apiVersion) pair, if any. -/
def ApiManagerState.getApiByKind (st : ApiManagerState) (kind apiVersion : String) : Option KubeApi :=
  getApiByKindList st.apis kind apiVersion

/-- Modelled from the spec: `apiManager.getStore(api)` — the store associated
with a handler, looked up by its base URL. -/
def ApiManagerState.getStore (st : ApiManagerState) (api : KubeApi) : Option String :=
  (st.stores.find? (fun p => p.1 == api.apiBase)).map Prod.snd

/-- Write an updated handler back into the registry: models the TS in-place
mutation of the handler object found by `getApiByKind`. -/
def updateApisList (api : KubeApi) (l : List KubeApi) : List KubeApi :=
  l.map (fun a => if a.kind = api.kind ∧ a.apiVersion = api.apiVersion then api else a)

/-- Registry after a handler update. -/
def ApiManagerState.updateApi (st : ApiManagerState) (api : KubeApi) : ApiManagerState :=
  ⟨updateApisList api st.apis, st.stores⟩

/-! ## Subscription registry (`KubeWatchApi.subscribers`)

The TS registry is an `observable.map<KubeApi, number>` keyed by object
reference; it is modelled as an association list over an arbitrary key type
with decidable equality. -/

variable {α : Type} [DecidableEq α]

/-- `KubeWatchApi.getSubscribersCount(api)`: `subscribers.get(api) || 0`. -/
def getSubscribersCount : List (α × Nat) → α → Nat
  | [], _ => 0
  | p :: t, api => if p.1 = api then p.2 else getSubscribersCount t api

/-- Whether the registry has an entry for a key. -/
def hasKey : List (α × Nat) → α → Bool
  | [], _ => false
  | p :: t, api => if p.1 = api then true else hasKey t api

/-- `subscribers.set(api, n)`: a JS `Map.set` — replace the (unique) entry
in place, appending when absent. -/
def setSubscriber : List (α × Nat) → α → Nat → List (α × Nat)
  | [], api, n => [(api, n)]
  | p :: t, api, n => if p.1 = api then (api, n) :: t else p :: setSubscriber t api n

/-- `subscribers.delete(api)`: remove the (unique) entry for the key. -/
def deleteSubscriber : List (α × Nat) → α → List (α × Nat)
  | [], _ => []
  | p :: t, api => if p.1 = api then t else p :: deleteSubscriber t api

/-- The `forEach` body of `subscribe`: `set(api, get(api) + 1)`. -/
def subscribeStep (s : List (α × Nat)) (api : α) : List (α × Nat) :=
  setSubscriber s api (getSubscribersCount s api + 1)

/-- The `forEach` body of the returned unsubscribe closure:
`count = get - 1; if (count <= 0) delete else set count`.  The count is
computed over the integers, exactly as TS arithmetic does. -/
def unsubscribeStep (s : List (α × Nat)) (api : α) : List (α × Nat) :=
  let count : Int := (getSubscribersCount s api : Int) - 1
  if count ≤ 0 then deleteSubscriber s api else setSubscriber s api count.toNat

/-- `KubeWatchApi.subscribe(...apis)`: increment each listed key's count. -/
def subscribeApis (s : List (α × Nat)) (apis : List α) : List (α × Nat) :=
  apis.foldl subscribeStep s

/-- The closure returned by `subscribe`, applied to the registry. -/
def unsubscribeApis (s : List (α × Nat)) (apis : List α) : List (α × Nat) :=
  apis.foldl unsubscribeStep s

/-- `KubeWatchApi.activeApis`: `Array.from(subscribers.keys())`. -/
def activeApis (s : List (α × Nat)) : List α :=
  s.map Prod.fst

/-! ## Operation sequences over the registry (for the ref-counting claims) -/

/-- One registry operation: a `subscribe(...apis)` call or an invocation of a
returned unsubscribe capability over the same descriptor list. -/
inductive SubOp (α : Type) where
  | sub (apis : List α)
  | unsub (apis : List α)
deriving DecidableEq, Repr

/-- The descriptor list an operation mentions. -/
def SubOp.apis : SubOp α → List α
  | .sub l => l
  | .unsub l => l

/-- Apply one operation to a registry state. -/
def applyOp (s : List (α × Nat)) : SubOp α → List (α × Nat)
  | .sub l => subscribeApis s l
  | .unsub l => unsubscribeApis s l

/-- Run a sequence of operations from the empty registry. -/
def applyOps (ops : List (SubOp α)) : List (α × Nat) :=
  ops.foldl applyOp []

/-- Multiplicity of a descriptor in a list. -/
def mult : List α → α → Nat
  | [], _ => 0
  | b :: t, a => (if b = a then 1 else 0) + mult t a

/-- Signed contribution of one operation to a descriptor's reference count. -/
def opDelta : SubOp α → α → Int
  | .sub l, a => (mult l a : Int)
  | .unsub l, a => -(mult l a : Int)

/-- Net reference count of a descriptor over an operation sequence:
subscriptions minus unsubscriptions. -/
def netCount (ops : List (SubOp α)) (a : α) : Int :=
  ops.foldl (fun n op => n + opDelta op a) 0

/-- All descriptors mentioned anywhere in a sequence. -/
def mentionedApis (ops : List (SubOp α)) : List α :=
  (ops.map SubOp.apis).flatten

/-- A sequence is well-formed when no prefix drives any descriptor's net
count negative (each unsubscribe capability is invoked at most once, after
its subscribe). -/
def wellFormed (ops : List (SubOp α)) : Prop :=
  ∀ n, n ≤ ops.length → ∀ a ∈ mentionedApis ops, 0 ≤ netCount (ops.take n) a

/-! ## Stream-event handling (`handleStreamEvent` / `getMessage`) -/

/-- The message delivered to consumers (`IKubeWatchMessage`): `error` carries
the whole error event, as in the source (`message.error = event`). -/
structure IKubeWatchMessage where
  data : Option KubeWatchEvent := none
  error : Option KubeWatchEvent := none
  api : Option KubeApi := none
  store : Option String := none
deriving DecidableEq, Repr

/-- The message with no fields set. -/
def emptyMessage : IKubeWatchMessage := ⟨none, none, none, none⟩

/-- Result of `getMessage`: the built message, the registry state after any
resource-version updates, and the URL handed to `onServerStreamEnd` when the
event was a `STREAM_END`. -/
structure GetMessageResult where
  message : IKubeWatchMessage
  state : ApiManagerState
  streamEndTriggered : Option String
deriving DecidableEq, Repr

/-- `KubeWatchApi.getMessage(event)`: switch on the event's `type` tag.
Data events resolve the handler by kind+apiVersion; when found, the object is
normalized, both the namespace-specific and the aggregate (empty-string)
resource-version cursors are set, and handler/store references are attached.
`ERROR` fills `message.error`; `STREAM_END` triggers the stream-end handler;
an unrecognized tag falls through, leaving the message empty. -/
def getMessage (st : ApiManagerState) (event : KubeWatchEvent) : GetMessageResult :=
  match event with
  | .added obj | .modified obj | .deleted obj =>
    match st.getApiByKind obj.kind obj.apiVersion with
    | some api =>
      let obj1 := ensureObjectSelfLink api obj
      let api1 := (api.setResourceVersion obj1.metadata.ns obj1.metadata.resourceVersion).setResourceVersion
        "" obj1.metadata.resourceVersion
      { message :=
          { data := some (event.withObject obj1)
            error := none
            api := some api1
            store := st.getStore api }
        state := st.updateApi api1
        streamEndTriggered := none }
    | none =>
      { message := { data := some event, error := none, api := none, store := none }
        state := st
        streamEndTriggered := none }
  | .errorEvent _ =>
    { message := { data := none, error := some event, api := none, store := none }
      state := st
      streamEndTriggered := none }
  | .streamEnd url =>
    { message := emptyMessage, state := st, streamEndTriggered := some url }
  | .unknown _ =>
    { message := emptyMessage, state := st, streamEndTriggered := none }

/-- Accumulated result of processing one chunk. -/
structure StreamEventResult where
  state : ApiManagerState
  emitted : List IKubeWatchMessage
  failures : Nat
  streamEnds : List String
deriving DecidableEq, Repr

/-- The per-record loop of `handleStreamEvent`: each record is parsed
(`JSON.parse` plus the wire-record shape, abstracted as the `parse` oracle);
on success the built message is emitted, on failure the error is logged and
the remaining records are still processed. -/
def processRecords (parse : String → Option KubeWatchEvent) (st : ApiManagerState) :
    List String → StreamEventResult
  | [] => ⟨st, [], 0, []⟩
  | l :: ls =>
    match parse l with
    | some ev =>
      let r := getMessage st ev
      let rest := processRecords parse r.state ls
      ⟨rest.state, r.message :: rest.emitted, rest.failures,
        r.streamEndTriggered.toList ++ rest.streamEnds⟩
    | none =>
      let rest := processRecords parse st ls
      ⟨rest.state, rest.emitted, rest.failures + 1, rest.streamEnds⟩

/-- Whitespace as the platform `String.prototype.trim` treats it. -/
def jsWhitespace (c : Char) : Bool :=
  c = ' ' || c = '\n' || c = '\t' || c = '\r'

/-- The platform `trim()`: strip leading and trailing whitespace. -/
def trimString (s : String) : String :=
  String.mk (((s.data.dropWhile jsWhitespace).reverse.dropWhile jsWhitespace).reverse)

/-- Split a character list on a separator character, JS `split` semantics:
the result always has one more part than there are separators. -/
def splitOnChar (c : Char) : List Char → List (List Char)
  | [] => [[]]
  | x :: t =>
    match splitOnChar c t with
    | [] => [[]]
    | h :: r => if x = c then [] :: h :: r else (x :: h) :: r

/-- The platform `split("\n")`: newline-delimited records of a chunk. -/
def splitLines (s : String) : List String :=
  (splitOnChar '\n' s.data).map String.mk

/-- `KubeWatchApi.handleStreamEvent(chunk)`: decode the chunk (UTF-8 decoding
is modelled as identity on strings), return early when empty, split the
trimmed text on newlines and process every record. -/
def handleStreamEvent (parse : String → Option KubeWatchEvent) (st : ApiManagerState)
    (chunk : String) : StreamEventResult :=
  if chunk = "" then ⟨st, [], 0, []⟩
  else processRecords parse st (splitLines (trimString chunk))

/-- The records of a chunk that the parser accepts, in order. -/
def validRecords (parse : String → Option KubeWatchEvent) (lines : List String) : List String :=
  lines.filter (fun l => (parse l).isSome)

/-! ## Request payload (`getRequestPayload`) -/

/-- `KubeWatchApi.getRequestPayload()`: for every active handler, nothing when
the cluster does not allow the resource kind, one watch URL per context
namespace when namespace-scoped, and a single cluster-scoped watch URL
otherwise; the per-handler lists are flattened into one URL list.
`isAllowedResource` (the cluster authorization collaborator) and the context
namespace list (the namespace store collaborator) are oracle parameters. -/
def getRequestPayload (isAllowedResource : String → Bool) (contextNamespaces : List String)
    (activeApis : List KubeApi) : List String :=
  (activeApis.map (fun api =>
    if !(isAllowedResource api.kind) then []
    else if api.isNamespaced then contextNamespaces.map (fun n => api.getWatchUrl (some n))
    else [api.getWatchUrl none])).flatten

/-- The watch targets of one descriptor as the spec's words state them: none
when unauthorized, one per currently-permitted namespace when
namespace-scoped, exactly one cluster-scoped target otherwise. -/
def specWatchTargets (isAllowedResource : String → Bool) (contextNamespaces : List String)
    (api : KubeApi) : List String :=
  if isAllowedResource api.kind = false then []
  else if api.isNamespaced = true then contextNamespaces.map (fun n => api.getWatchUrl (some n))
  else [api.getWatchUrl none]

/-! ## Connect (`connect`) and its declared reconnect configuration -/

/-- `KubeWatchApi.reconnectTimeoutMs` (declared in the source; never read). -/
def reconnectTimeoutMs : Nat := 5000

/-- `KubeWatchApi.maxReconnectsOnError` (declared in the source; never read). -/
def maxReconnectsOnError : Nat := 10

/-- Observable outcome of one `connect()` call.  `retryDelayMs` records a
reconnect scheduled by the call (the source schedules none) and
`surfacedTerminalError` records a terminal connectivity error surfaced to
consumers (the source surfaces none). -/
structure ConnectResult where
  streamOpen : Bool
  loggedConnecting : Bool
  loggedConnectionError : Bool
  retryDelayMs : Option Nat
  surfacedTerminalError : Bool
deriving DecidableEq, Repr

/-- `KubeWatchApi.connect()`: return early on an empty payload, log
"connecting", then `fetch`; a successful fetch installs the readable stream,
a failed fetch is caught and only logged as "connection error".  The fetch
outcome is the `fetchSucceeds` oracle. -/
def connect (payloadApis : List String) (fetchSucceeds : Bool) : ConnectResult :=
  if payloadApis.isEmpty then ⟨false, false, false, none, false⟩
  else if fetchSucceeds then ⟨true, true, false, none, false⟩
  else ⟨false, true, true, none, false⟩

/-! ## Stream-end handling (`onServerStreamEnd`) -/

/-- Modelled from the spec: the apiBase component parsed back out of a watch
URL (`KubeApi.parseApi`, `kube-api.ts` not in `src/`); the parsed namespace is
only passed to the external refresh call, which is abstracted as an oracle. -/
def parseApiBase (url : String) : String :=
  url.takeWhile (fun c => c != '?')

/-- Observable outcome of one `onServerStreamEnd` invocation. -/
structure StreamEndResult where
  refreshAttempted : Bool
  reconnectCalled : Bool
  retryDelayMs : Option Nat
deriving DecidableEq, Repr

/-- `KubeWatchApi.onServerStreamEnd(event)`: resolve the handler from the
event URL; when absent, nothing happens.  When present, attempt the
resource-version refresh (outcome given by the `refreshOk` oracle): on
success reconnect, on failure log and — only when there is at least one
subscriber — schedule a retry of the same handling after 1000 ms. -/
def onServerStreamEnd (getApi : String → Option KubeApi) (url : String)
    (refreshOk : Bool) (subscribersSize : Nat) : StreamEndResult :=
  match getApi (parseApiBase url) with
  | none => ⟨false, false, none⟩
  | some _ =>
    if refreshOk then ⟨true, true, none⟩
    else ⟨true, false, if 0 < subscribersSize then some 1000 else none⟩

/-- The outcome of the `n`-th stream-end handling attempt, with per-attempt
oracles for the refresh outcome and the subscriber count. -/
def streamEndAttempt (getApi : String → Option KubeApi) (url : String)
    (refreshOk : Nat → Bool) (subs : Nat → Nat) (n : Nat) : StreamEndResult :=
  onServerStreamEnd getApi url (refreshOk n) (subs n)

/-- Whether the `n`-th attempt is ever reached: attempt 0 is the original
invocation, and attempt `n+1` runs exactly when attempt `n` scheduled a
retry. -/
def attemptReached (getApi : String → Option KubeApi) (url : String)
    (refreshOk : Nat → Bool) (subs : Nat → Nat) : Nat → Bool
  | 0 => true
  | n + 1 =>
    attemptReached getApi url refreshOk subs n &&
      (streamEndAttempt getApi url refreshOk subs n).retryDelayMs.isSome

/-! ## Invariants used by the proofs -/

/-- Registry keys are pairwise distinct (a JS `Map` guarantee). -/
def keysNodup (s : List (α × Nat)) : Prop :=
  (s.map Prod.fst).Nodup

/-- Every stored entry has a positive count: a key is present exactly when
its count is positive. -/
def posCounts (s : List (α × Nat)) : Prop :=
  ∀ a, hasKey s a = true ↔ 0 < getSubscribersCount s a

/-- The registry invariant maintained by `subscribe`/`unsubscribe`. -/
def regInv (s : List (α × Nat)) : Prop :=
  keysNodup s ∧ posCounts s

/-- Records whose `type` tag is `STREAM_END` or none of the five known
kinds. -/
def isEndOrUnknownTag : KubeWatchEvent → Bool
  | .streamEnd _ => true
  | .unknown _ => true
  | _ => false

end KubeWatch

/-! ## Lemmas: association-list registry operations -/

namespace KubeWatch

variable {α : Type} [DecidableEq α]

theorem getSubscribersCount_setSubscriber_self (s : List (α × Nat)) (a : α) (n : Nat) :
    getSubscribersCount (setSubscriber s a n) a = n := by
  induction s with
  | nil => simp [setSubscriber, getSubscribersCount]
  | cons p t ih =>
    by_cases h : p.1 = a
    · simp [setSubscriber, h, getSubscribersCount]
    · simp [setSubscriber, h, getSubscribersCount, ih]

theorem getSubscribersCount_setSubscriber_ne (s : List (α × Nat)) {a b : α} (n : Nat)
    (h : b ≠ a) : getSubscribersCount (setSubscriber s a n) b = getSubscribersCount s b := by
  induction s with
  | nil => simp [setSubscriber, getSubscribersCount, Ne.symm h]
  | cons p t ih =>
    by_cases hp : p.1 = a
    · have hpb : ¬(p.1 = b) := by rw [hp]; exact Ne.symm h
      simp [setSubscriber, hp, getSubscribersCount, Ne.symm h, hpb]
    · by_cases hpb : p.1 = b
      · simp [setSubscriber, hp, getSubscribersCount, hpb, h, Ne.symm h]
      · simp [setSubscriber, hp, getSubscribersCount, hpb, h, Ne.symm h, ih]

theorem hasKey_setSubscriber_self (s : List (α × Nat)) (a : α) (n : Nat) :
    hasKey (setSubscriber s a n) a = true := by
  induction s with
  | nil => simp [setSubscriber, hasKey]
  | cons p t ih =>
    by_cases h : p.1 = a
    · simp [setSubscriber, h, hasKey]
    · simp [setSubscriber, h, hasKey, ih]

theorem hasKey_setSubscriber_ne (s : List (α × Nat)) {a b : α} (n : Nat)
    (h : b ≠ a) : hasKey (setSubscriber s a n) b = hasKey s b := by
  induction s with
  | nil => simp [setSubscriber, hasKey, Ne.symm h]
  | cons p t ih =>
    by_cases hp : p.1 = a
    · have hpb : ¬(p.1 = b) := by rw [hp]; exact Ne.symm h
      simp [setSubscriber, hp, hasKey, Ne.symm h, hpb]
    · by_cases hpb : p.1 = b
      · simp [setSubscriber, hp, hasKey, hpb, h, Ne.symm h]
      · simp [setSubscriber, hp, hasKey, hpb, h, Ne.symm h, ih]

theorem getSubscribersCount_deleteSubscriber_ne (s : List (α × Nat)) {a b : α}
    (h : b ≠ a) : getSubscribersCount (deleteSubscriber s a) b = getSubscribersCount s b := by
  induction s with
  | nil => simp [deleteSubscriber]
  | cons p t ih =>
    by_cases hp : p.1 = a
    · have hpb : ¬(p.1 = b) := by rw [hp]; exact Ne.symm h
      simp [deleteSubscriber, hp, getSubscribersCount, hpb, h, Ne.symm h]
    · by_cases hpb : p.1 = b
      · simp [deleteSubscriber, hp, getSubscribersCount, hpb, h, Ne.symm h]
      · simp [deleteSubscriber, hp, getSubscribersCount, hpb, h, Ne.symm h, ih]

theorem hasKey_deleteSubscriber_ne (s : List (α × Nat)) {a b : α}
    (h : b ≠ a) : hasKey (deleteSubscriber s a) b = hasKey s b := by
  induction s with
  | nil => simp [deleteSubscriber]
  | cons p t ih =>
    by_cases hp : p.1 = a
    · have hpb : ¬(p.1 = b) := by rw [hp]; exact Ne.symm h
      simp [deleteSubscriber, hp, hasKey, hpb, h, Ne.symm h]
    · by_cases hpb : p.1 = b
      · simp [deleteSubscriber, hp, hasKey, hpb, h, Ne.symm h]
      · simp [deleteSubscriber, hp, hasKey, hpb, h, Ne.symm h, ih]

theorem hasKey_iff_mem (s : List (α × Nat)) (a : α) :
    hasKey s a = true ↔ a ∈ s.map Prod.fst := by
  induction s with
  | nil => simp [hasKey]
  | cons p t ih =>
    by_cases h : p.1 = a
    · simp [hasKey, h]
    · simp [hasKey, h, ih, Ne.symm h]

theorem getSubscribersCount_of_hasKey_false (s : List (α × Nat)) (a : α)
    (h : hasKey s a = false) : getSubscribersCount s a = 0 := by
  induction s with
  | nil => simp [getSubscribersCount]
  | cons p t ih =>
    by_cases hp : p.1 = a
    · simp [hasKey, hp] at h
    · simp [hasKey, hp] at h
      simp [getSubscribersCount, hp, ih h]

theorem deleteSubscriber_of_hasKey_false (s : List (α × Nat)) (a : α)
    (h : hasKey s a = false) : deleteSubscriber s a = s := by
  induction s with
  | nil => simp [deleteSubscriber]
  | cons p t ih =>
    by_cases hp : p.1 = a
    · simp [hasKey, hp] at h
    · simp [hasKey, hp] at h
      simp [deleteSubscriber, hp, ih h]

theorem getSubscribersCount_deleteSubscriber_self (s : List (α × Nat)) (a : α)
    (hnd : keysNodup s) : getSubscribersCount (deleteSubscriber s a) a = 0 := by
  induction s with
  | nil => simp [deleteSubscriber, getSubscribersCount]
  | cons p t ih =>
    rw [keysNodup, List.map_cons, List.nodup_cons] at hnd
    by_cases hp : p.1 = a
    · have : a ∉ t.map Prod.fst := hp ▸ hnd.1
      have hk : hasKey t a = false := by
        rcases h : hasKey t a with _ | _
        · rfl
        · exact absurd ((hasKey_iff_mem t a).mp h) this
      simp [deleteSubscriber, hp, getSubscribersCount_of_hasKey_false t a hk]
    · simp [deleteSubscriber, hp, getSubscribersCount, ih hnd.2]

theorem hasKey_deleteSubscriber_self (s : List (α × Nat)) (a : α)
    (hnd : keysNodup s) : hasKey (deleteSubscriber s a) a = false := by
  induction s with
  | nil => simp [deleteSubscriber, hasKey]
  | cons p t ih =>
    rw [keysNodup, List.map_cons, List.nodup_cons] at hnd
    by_cases hp : p.1 = a
    · have : a ∉ t.map Prod.fst := hp ▸ hnd.1
      rcases h : hasKey t a with _ | _
      · simpa [deleteSubscriber, hp] using h
      · exact absurd ((hasKey_iff_mem t a).mp h) this
    · simp [deleteSubscriber, hp, hasKey, ih hnd.2]

theorem mem_keys_setSubscriber (s : List (α × Nat)) (a b : α) (n : Nat) :
    b ∈ (setSubscriber s a n).map Prod.fst ↔ b = a ∨ b ∈ s.map Prod.fst := by
  induction s with
  | nil => simp [setSubscriber]
  | cons p t ih =>
    by_cases hp : p.1 = a
    · subst hp
      simp [setSubscriber]
    · simp [setSubscriber, hp, ih]
      tauto

theorem keysNodup_setSubscriber (s : List (α × Nat)) (a : α) (n : Nat)
    (hnd : keysNodup s) : keysNodup (setSubscriber s a n) := by
  induction s with
  | nil => simp [setSubscriber, keysNodup]
  | cons p t ih =>
    rw [keysNodup, List.map_cons, List.nodup_cons] at hnd
    by_cases hp : p.1 = a
    · rw [keysNodup, setSubscriber]
      simp only [hp, if_pos]
      simp [List.nodup_cons, hp ▸ hnd.1, hnd.2]
    · rw [keysNodup, setSubscriber]
      simp only [hp, if_neg, not_false_iff]
      rw [List.map_cons, List.nodup_cons]
      refine ⟨fun hmem => ?_, ih hnd.2⟩
      rcases (mem_keys_setSubscriber t a p.1 n).mp hmem with h | h
      · exact hp h
      · exact hnd.1 h

theorem mem_keys_deleteSubscriber (s : List (α × Nat)) (a b : α) :
    b ∈ (deleteSubscriber s a).map Prod.fst → b ∈ s.map Prod.fst := by
  induction s with
  | nil => simp [deleteSubscriber]
  | cons p t ih =>
    by_cases hp : p.1 = a
    · simp [deleteSubscriber, hp]
      tauto
    · simp only [deleteSubscriber, hp, if_neg, not_false_iff, List.map_cons, List.mem_cons]
      rintro (h | h)
      · exact Or.inl h
      · exact Or.inr (ih h)

theorem keysNodup_deleteSubscriber (s : List (α × Nat)) (a : α)
    (hnd : keysNodup s) : keysNodup (deleteSubscriber s a) := by
  induction s with
  | nil => simpa [deleteSubscriber] using hnd
  | cons p t ih =>
    rw [keysNodup, List.map_cons, List.nodup_cons] at hnd
    by_cases hp : p.1 = a
    · rw [keysNodup, deleteSubscriber]
      simp only [hp, if_pos]
      exact hnd.2
    · rw [keysNodup, deleteSubscriber]
      simp only [hp, if_neg, not_false_iff]
      rw [List.map_cons, List.nodup_cons]
      exact ⟨fun hmem => hnd.1 (mem_keys_deleteSubscriber t a p.1 hmem), ih hnd.2⟩

end KubeWatch

/-! ## Lemmas: subscribe/unsubscribe steps and folds -/

namespace KubeWatch

variable {α : Type} [DecidableEq α]

theorem getSubscribersCount_subscribeStep (s : List (α × Nat)) (x b : α) :
    getSubscribersCount (subscribeStep s x) b =
      if b = x then getSubscribersCount s x + 1 else getSubscribersCount s b := by
  by_cases h : b = x
  · subst h
    simp [subscribeStep, getSubscribersCount_setSubscriber_self]
  · simp [subscribeStep, h, getSubscribersCount_setSubscriber_ne s _ h]

theorem regInv_subscribeStep (s : List (α × Nat)) (x : α) (h : regInv s) :
    regInv (subscribeStep s x) := by
  refine ⟨keysNodup_setSubscriber s x _ h.1, fun b => ?_⟩
  by_cases hb : b = x
  · subst hb
    simp [subscribeStep, hasKey_setSubscriber_self, getSubscribersCount_setSubscriber_self]
  · rw [subscribeStep, hasKey_setSubscriber_ne s _ hb, getSubscribersCount_setSubscriber_ne s _ hb]
    exact h.2 b

theorem getSubscribersCount_unsubscribeStep (s : List (α × Nat)) (x b : α) (h : regInv s) :
    getSubscribersCount (unsubscribeStep s x) b =
      if b = x then getSubscribersCount s x - 1 else getSubscribersCount s b := by
  rw [unsubscribeStep]
  by_cases hc : ((getSubscribersCount s x : Int) - 1) ≤ 0
  · have hle : getSubscribersCount s x ≤ 1 := by omega
    simp only [hc, if_pos]
    by_cases hb : b = x
    · subst hb
      rw [getSubscribersCount_deleteSubscriber_self s b h.1, if_pos rfl]
      omega
    · simp [hb, getSubscribersCount_deleteSubscriber_ne s hb]
  · have h2 : 2 ≤ getSubscribersCount s x := by omega
    simp only [hc, if_neg, not_false_iff]
    by_cases hb : b = x
    · subst hb
      rw [getSubscribersCount_setSubscriber_self, if_pos rfl]
      omega
    · rw [getSubscribersCount_setSubscriber_ne s _ hb]
      simp [hb]

theorem regInv_unsubscribeStep (s : List (α × Nat)) (x : α) (h : regInv s) :
    regInv (unsubscribeStep s x) := by
  rw [unsubscribeStep]
  by_cases hc : ((getSubscribersCount s x : Int) - 1) ≤ 0
  · have hle : getSubscribersCount s x ≤ 1 := by omega
    simp only [hc, if_pos]
    refine ⟨keysNodup_deleteSubscriber s x h.1, fun b => ?_⟩
    by_cases hb : b = x
    · subst hb
      rw [hasKey_deleteSubscriber_self s b h.1, getSubscribersCount_deleteSubscriber_self s b h.1]
      simp
    · rw [hasKey_deleteSubscriber_ne s hb, getSubscribersCount_deleteSubscriber_ne s hb]
      exact h.2 b
  · have h2 : 2 ≤ getSubscribersCount s x := by omega
    simp only [hc, if_neg, not_false_iff]
    refine ⟨keysNodup_setSubscriber s x _ h.1, fun b => ?_⟩
    by_cases hb : b = x
    · subst hb
      rw [hasKey_setSubscriber_self, getSubscribersCount_setSubscriber_self]
      constructor
      · intro
        omega
      · intro
        rfl
    · rw [hasKey_setSubscriber_ne s _ hb, getSubscribersCount_setSubscriber_ne s _ hb]
      exact h.2 b

theorem getSubscribersCount_subscribeApis (l : List α) (s : List (α × Nat)) (b : α) :
    getSubscribersCount (subscribeApis s l) b = getSubscribersCount s b + mult l b := by
  induction l generalizing s with
  | nil => simp [subscribeApis, mult]
  | cons x t ih =>
    have hstep : subscribeApis s (x :: t) = subscribeApis (subscribeStep s x) t := rfl
    rw [hstep, ih, getSubscribersCount_subscribeStep]
    by_cases h : b = x
    · subst h
      simp [mult]
      omega
    · simp only [mult, if_neg h, if_neg (Ne.symm h)]
      omega

theorem regInv_subscribeApis (l : List α) (s : List (α × Nat)) (h : regInv s) :
    regInv (subscribeApis s l) := by
  induction l generalizing s with
  | nil => exact h
  | cons x t ih => exact ih (subscribeStep s x) (regInv_subscribeStep s x h)

theorem getSubscribersCount_unsubscribeApis (l : List α) (s : List (α × Nat)) (b : α)
    (h : regInv s) :
    getSubscribersCount (unsubscribeApis s l) b = getSubscribersCount s b - mult l b := by
  induction l generalizing s with
  | nil => simp [unsubscribeApis, mult]
  | cons x t ih =>
    have hstep : unsubscribeApis s (x :: t) = unsubscribeApis (unsubscribeStep s x) t := rfl
    rw [hstep, ih (unsubscribeStep s x) (regInv_unsubscribeStep s x h),
      getSubscribersCount_unsubscribeStep s x b h]
    by_cases hb : b = x
    · subst hb
      simp [mult]
      omega
    · simp only [mult, if_neg hb, if_neg (Ne.symm hb)]
      omega

theorem regInv_unsubscribeApis (l : List α) (s : List (α × Nat)) (h : regInv s) :
    regInv (unsubscribeApis s l) := by
  induction l generalizing s with
  | nil => exact h
  | cons x t ih => exact ih (unsubscribeStep s x) (regInv_unsubscribeStep s x h)

theorem regInv_applyOp (s : List (α × Nat)) (op : SubOp α) (h : regInv s) :
    regInv (applyOp s op) := by
  cases op with
  | sub l => exact regInv_subscribeApis l s h
  | unsub l => exact regInv_unsubscribeApis l s h

theorem regInv_empty : regInv ([] : List (α × Nat)) := by
  refine ⟨List.nodup_nil, fun a => ?_⟩
  simp [hasKey, getSubscribersCount]

theorem regInv_foldl_applyOp (ops : List (SubOp α)) (s : List (α × Nat)) (h : regInv s) :
    regInv (ops.foldl applyOp s) := by
  induction ops generalizing s with
  | nil => exact h
  | cons op rest ih => exact ih (applyOp s op) (regInv_applyOp s op h)

theorem regInv_applyOps (ops : List (SubOp α)) : regInv (applyOps ops) :=
  regInv_foldl_applyOp ops [] regInv_empty

end KubeWatch

/-! ## Lemmas: net reference counts over operation sequences -/

namespace KubeWatch

variable {α : Type} [DecidableEq α]

theorem netCount_nil (a : α) : netCount ([] : List (SubOp α)) a = 0 := rfl

theorem netCount_foldl_init (l : List (SubOp α)) (a : α) (i : Int) :
    l.foldl (fun n op => n + opDelta op a) i = i + netCount l a := by
  induction l generalizing i with
  | nil => simp [netCount]
  | cons x t ih =>
    show t.foldl (fun n op => n + opDelta op a) (i + opDelta x a) = i + netCount (x :: t) a
    rw [ih]
    have hx : netCount (x :: t) a = t.foldl (fun n op => n + opDelta op a) (0 + opDelta x a) := rfl
    rw [hx, ih]
    ring

theorem netCount_cons (op : SubOp α) (l : List (SubOp α)) (a : α) :
    netCount (op :: l) a = opDelta op a + netCount l a := by
  have h : netCount (op :: l) a = l.foldl (fun n op => n + opDelta op a) (0 + opDelta op a) := rfl
  rw [h, netCount_foldl_init]
  ring

theorem mult_eq_zero_of_not_mem (l : List α) (a : α) (h : a ∉ l) : mult l a = 0 := by
  induction l with
  | nil => rfl
  | cons x t ih =>
    simp only [List.mem_cons, not_or] at h
    simp [mult, Ne.symm h.1, ih h.2]

theorem mem_mentionedApis (ops : List (SubOp α)) (a : α) :
    a ∈ mentionedApis ops ↔ ∃ op ∈ ops, a ∈ op.apis := by
  simp [mentionedApis, List.mem_flatten]

theorem netCount_eq_zero_of_not_mentioned (ops : List (SubOp α)) (a : α)
    (h : a ∉ mentionedApis ops) : netCount ops a = 0 := by
  induction ops with
  | nil => rfl
  | cons op rest ih =>
    rw [mem_mentionedApis] at h
    push_neg at h
    have h1 : a ∉ op.apis := h op (List.mem_cons_self op rest)
    have h2 : a ∉ mentionedApis rest := by
      rw [mem_mentionedApis]
      push_neg
      exact fun o ho => h o (List.mem_cons_of_mem op ho)
    rw [netCount_cons, ih h2]
    cases op with
    | sub l => simp [opDelta, mult_eq_zero_of_not_mem l a h1]
    | unsub l => simp [opDelta, mult_eq_zero_of_not_mem l a h1]

theorem take_eq_self_of_length_le (l : List (SubOp α)) (n : Nat) (h : l.length ≤ n) :
    l.take n = l := by
  induction l generalizing n with
  | nil => simp
  | cons x t ih =>
    cases n with
    | zero => simp at h
    | succ m =>
      simp only [List.length_cons, Nat.succ_le_succ_iff] at h
      simp [List.take, ih m h]

theorem getSubscribersCount_applyOp_int (s : List (α × Nat)) (op : SubOp α) (a : α)
    (h : regInv s) (hsafe : 0 ≤ (getSubscribersCount s a : Int) + opDelta op a) :
    (getSubscribersCount (applyOp s op) a : Int) = (getSubscribersCount s a : Int) + opDelta op a := by
  cases op with
  | sub l =>
    rw [applyOp, getSubscribersCount_subscribeApis]
    simp [opDelta]
  | unsub l =>
    rw [applyOp, getSubscribersCount_unsubscribeApis l s a h]
    simp only [opDelta] at hsafe ⊢
    omega

theorem foldl_applyOp_count_int (ops : List (SubOp α)) (s : List (α × Nat))
    (h : regInv s)
    (hsafe : ∀ n, ∀ a, 0 ≤ (getSubscribersCount s a : Int) + netCount (ops.take n) a) :
    ∀ a, (getSubscribersCount (ops.foldl applyOp s) a : Int)
      = (getSubscribersCount s a : Int) + netCount ops a := by
  induction ops generalizing s with
  | nil =>
    intro a
    simp [netCount]
  | cons op rest ih =>
    intro a
    have hstep : ∀ b, (getSubscribersCount (applyOp s op) b : Int)
        = (getSubscribersCount s b : Int) + opDelta op b := by
      intro b
      refine getSubscribersCount_applyOp_int s op b h ?_
      have h1 := hsafe 1 b
      simpa [List.take, netCount_cons, netCount_nil] using h1
    have hsafe2 : ∀ n, ∀ b, 0 ≤ (getSubscribersCount (applyOp s op) b : Int)
        + netCount (rest.take n) b := by
      intro n b
      have h1 := hsafe (n + 1) b
      rw [List.take_succ_cons, netCount_cons] at h1
      rw [hstep b]
      omega
    have := ih (applyOp s op) (regInv_applyOp s op h) hsafe2 a
    have hfold : (op :: rest).foldl applyOp s = rest.foldl applyOp (applyOp s op) := rfl
    rw [hfold, this, hstep a, netCount_cons]
    ring

end KubeWatch

/-! ## Lemmas: registry entries and unsubscribing absent keys -/

namespace KubeWatch

variable {α : Type} [DecidableEq α]

theorem getSubscribersCount_of_mem (s : List (α × Nat)) (p : α × Nat) (hnd : keysNodup s)
    (hm : p ∈ s) : getSubscribersCount s p.1 = p.2 := by
  induction s with
  | nil => cases hm
  | cons q t ih =>
    rw [keysNodup, List.map_cons, List.nodup_cons] at hnd
    rcases List.mem_cons.mp hm with rfl | hm2
    · simp [getSubscribersCount]
    · have hq : ¬q.1 = p.1 := by
        intro he
        exact hnd.1 (he ▸ List.mem_map_of_mem Prod.fst hm2)
      simp [getSubscribersCount, hq, ih hnd.2 hm2]

theorem hasKey_of_mem (s : List (α × Nat)) (p : α × Nat) (hm : p ∈ s) :
    hasKey s p.1 = true := by
  rw [hasKey_iff_mem]
  exact List.mem_map_of_mem Prod.fst hm

theorem unsubscribeApis_of_all_absent (l : List α) (s : List (α × Nat))
    (h : ∀ a ∈ l, hasKey s a = false) : unsubscribeApis s l = s := by
  induction l with
  | nil => rfl
  | cons x t ih =>
    have hx : hasKey s x = false := h x (List.mem_cons_self x t)
    have hc : getSubscribersCount s x = 0 := getSubscribersCount_of_hasKey_false s x hx
    have hstep : unsubscribeStep s x = s := by
      rw [unsubscribeStep]
      have : ((getSubscribersCount s x : Int) - 1) ≤ 0 := by
        rw [hc]
        norm_num
      rw [if_pos this]
      exact deleteSubscriber_of_hasKey_false s x hx
    have hfold : unsubscribeApis s (x :: t) = unsubscribeApis (unsubscribeStep s x) t := rfl
    rw [hfold, hstep]
    exact ih (fun a ha => h a (List.mem_cons_of_mem x ha))

end KubeWatch

/-! ## Claims C2 and C6: reference-counted subscription registry -/

namespace KubeWatch

variable {α : Type} [DecidableEq α]

/-- C2 counterexample: with two subscriptions of descriptor `0` held, invoking
one returned unsubscribe capability twice removes the entry entirely, whereas
invoking it once leaves the other subscriber's reference; the claimed
idempotence fails on the code. -/
theorem unsubscribe_twice_not_noop_cex :
    unsubscribeApis
        (unsubscribeApis (subscribeApis (subscribeApis ([] : List (Nat × Nat)) [0]) [0]) [0]) [0]
      ≠ unsubscribeApis (subscribeApis (subscribeApis ([] : List (Nat × Nat)) [0]) [0]) [0] := by
  decide

/-- C2 (amended): invoking the returned capability again is a no-op exactly
when the first invocation left no entry for any of the subscribed descriptors
(i.e. no other subscribers held references); in that case any further
invocation leaves the registry unchanged. -/
theorem unsubscribe_second_invocation_noop_c2 (s : List (α × Nat)) (apis : List α)
    (h : ∀ a ∈ apis, hasKey (unsubscribeApis s apis) a = false) :
    unsubscribeApis (unsubscribeApis s apis) apis = unsubscribeApis s apis :=
  unsubscribeApis_of_all_absent apis (unsubscribeApis s apis) h

/-- C2 witness: a single subscriber of descriptor `0`; the second invocation
of its capability is a no-op. -/
theorem unsubscribe_second_invocation_noop_c2_witness :
    (∀ a ∈ [(0 : Nat)],
        hasKey (unsubscribeApis (subscribeApis ([] : List (Nat × Nat)) [0]) [0]) a = false) ∧
      unsubscribeApis (unsubscribeApis (subscribeApis ([] : List (Nat × Nat)) [0]) [0]) [0]
        = unsubscribeApis (subscribeApis ([] : List (Nat × Nat)) [0]) [0] :=
  ⟨by decide, unsubscribe_second_invocation_noop_c2 _ _ (by decide)⟩

/-- C6 counterexample: the sequence subscribe `0`, unsubscribe `0`,
unsubscribe `0` (the same capability twice), subscribe `0` leaves `0` in the
active set although its net reference count is `0`, so the active set does
not equal the positive-net-count set for arbitrary call sequences. -/
theorem activeApis_netCount_order_cex :
    (0 : Nat) ∈ activeApis
        (applyOps [SubOp.sub [0], SubOp.unsub [0], SubOp.unsub [0], SubOp.sub [0]]) ∧
      netCount [SubOp.sub [0], SubOp.unsub [0], SubOp.unsub [0], SubOp.sub [(0 : Nat)]] 0 = 0 := by
  decide

/-- C6 (amended): for every sequence of subscribe/unsubscribe calls —
unconditionally — every stored entry's count is positive: counts never go
below zero and an entry is removed exactly when its count reaches 0; and
whenever no prefix of the sequence drives a descriptor's net reference count
negative (each unsubscribe capability invoked at most once, after its
subscribe), the active set equals exactly the descriptors with positive net
count — hence it depends only on the multiset of calls, not their order. -/
theorem activeApis_eq_positive_netCount_c6 (ops : List (SubOp α)) :
    (∀ p ∈ applyOps ops, 0 < p.2) ∧
      ((∀ n, n ≤ ops.length → ∀ a ∈ mentionedApis ops, 0 ≤ netCount (ops.take n) a) →
        ∀ a, a ∈ activeApis (applyOps ops) ↔ 0 < netCount ops a) := by
  have hinv := regInv_applyOps (α := α) ops
  constructor
  · intro p hp
    have hk := hasKey_of_mem _ p hp
    have h2 := (hinv.2 p.1).mp hk
    rwa [getSubscribersCount_of_mem _ p hinv.1 hp] at h2
  · intro h
    have hfull : ∀ n, ∀ a, 0 ≤ (getSubscribersCount ([] : List (α × Nat)) a : Int)
        + netCount (ops.take n) a := by
      intro n a
      have hz : getSubscribersCount ([] : List (α × Nat)) a = 0 := rfl
      rw [hz]
      simp only [Nat.cast_zero, zero_add]
      by_cases hm : a ∈ mentionedApis ops
      · by_cases hn : n ≤ ops.length
        · exact h n hn a hm
        · rw [take_eq_self_of_length_le ops n (by omega)]
          have h2 := h ops.length (le_refl _) a hm
          rwa [take_eq_self_of_length_le ops ops.length (le_refl _)] at h2
      · have hnot : a ∉ mentionedApis (ops.take n) := by
          intro hmem
          rcases (mem_mentionedApis _ a).mp hmem with ⟨op, hop, ha⟩
          exact hm ((mem_mentionedApis ops a).mpr ⟨op, List.take_subset n ops hop, ha⟩)
        rw [netCount_eq_zero_of_not_mentioned _ a hnot]
    have hcount : ∀ a, (getSubscribersCount (applyOps ops) a : Int) = netCount ops a := by
      intro a
      have h2 := foldl_applyOp_count_int ops [] regInv_empty hfull a
      have hz : getSubscribersCount ([] : List (α × Nat)) a = 0 := rfl
      rw [hz] at h2
      simpa using h2
    intro a
    have hmem : a ∈ activeApis (applyOps ops) ↔ hasKey (applyOps ops) a = true :=
      (hasKey_iff_mem _ a).symm
    rw [hmem, hinv.2 a]
    have h2 := hcount a
    omega

/-- C6 witness: entry counts are positive even for the over-unsubscribing
sequence subscribe `{0}`, unsubscribe `{0}` twice, subscribe `{0}`; and for
the well-formed sequence subscribe `{0, 1}` then unsubscribe `{1}` the active
set is exactly the positive-net-count descriptors. -/
theorem activeApis_eq_positive_netCount_c6_witness :
    (∀ p ∈ applyOps [SubOp.sub [0], SubOp.unsub [0], SubOp.unsub [0], SubOp.sub [(0 : Nat)]],
        0 < p.2) ∧
      (∀ p ∈ applyOps [SubOp.sub [0, 1], SubOp.unsub [(1 : Nat)]], 0 < p.2) ∧
      (∀ a, a ∈ activeApis (applyOps [SubOp.sub [0, 1], SubOp.unsub [(1 : Nat)]]) ↔
        0 < netCount [SubOp.sub [0, 1], SubOp.unsub [(1 : Nat)]] a) :=
  ⟨(activeApis_eq_positive_netCount_c6
      [SubOp.sub [0], SubOp.unsub [0], SubOp.unsub [0], SubOp.sub [(0 : Nat)]]).1,
    (activeApis_eq_positive_netCount_c6 [SubOp.sub [0, 1], SubOp.unsub [(1 : Nat)]]).1,
    (activeApis_eq_positive_netCount_c6 [SubOp.sub [0, 1], SubOp.unsub [(1 : Nat)]]).2
      (by decide)⟩

end KubeWatch

/-! ## Lemmas: resource-version cursors and handler lookup after update -/

namespace KubeWatch

theorem getRV_setRV_self (l : List (String × String)) (ns v : String) :
    getRV (setRV l ns v) ns = some v := by
  induction l with
  | nil => simp [setRV, getRV]
  | cons p t ih =>
    by_cases h : p.1 = ns
    · simp [setRV, h, getRV]
    · simp [setRV, h, getRV, ih]

theorem getRV_setRV_ne (l : List (String × String)) (ns v ns2 : String) (h : ns2 ≠ ns) :
    getRV (setRV l ns v) ns2 = getRV l ns2 := by
  induction l with
  | nil => simp [setRV, getRV, Ne.symm h]
  | cons p t ih =>
    by_cases hp : p.1 = ns
    · have hpb : ¬(p.1 = ns2) := by rw [hp]; exact Ne.symm h
      simp [setRV, hp, getRV, Ne.symm h, hpb, h]
    · by_cases hpb : p.1 = ns2
      · simp [setRV, hp, getRV, hpb, h, Ne.symm h]
      · simp [setRV, hp, getRV, hpb, h, Ne.symm h, ih]

theorem kind_setResourceVersion (api : KubeApi) (ns v : String) :
    (api.setResourceVersion ns v).kind = api.kind := rfl

theorem apiVersion_setResourceVersion (api : KubeApi) (ns v : String) :
    (api.setResourceVersion ns v).apiVersion = api.apiVersion := rfl

theorem ensureObjectSelfLink_ns (api : KubeApi) (o : KubeJsonApiData) :
    (ensureObjectSelfLink api o).metadata.ns = o.metadata.ns := by
  cases h : o.metadata.selfLink <;> simp [ensureObjectSelfLink, h]

theorem ensureObjectSelfLink_resourceVersion (api : KubeApi) (o : KubeJsonApiData) :
    (ensureObjectSelfLink api o).metadata.resourceVersion = o.metadata.resourceVersion := by
  cases h : o.metadata.selfLink <;> simp [ensureObjectSelfLink, h]

theorem getApiByKindList_cons (a : KubeApi) (t : List KubeApi) (k v : String) :
    getApiByKindList (a :: t) k v =
      if (a.kind == k && a.apiVersion == v) = true then some a else getApiByKindList t k v := by
  cases hpa : (a.kind == k && a.apiVersion == v) <;>
    simp [getApiByKindList, List.find?, hpa]

theorem getApiByKindList_updateApisList (l : List KubeApi) (api api2 : KubeApi) (k v : String)
    (hfind : getApiByKindList l k v = some api) (hk : api2.kind = k) (hv : api2.apiVersion = v) :
    getApiByKindList (updateApisList api2 l) k v = some api2 := by
  induction l with
  | nil => simp [getApiByKindList] at hfind
  | cons a t ih =>
    by_cases hpa : (a.kind == k && a.apiVersion == v) = true
    · have hak : a.kind = k ∧ a.apiVersion = v := by
        simp only [Bool.and_eq_true, beq_iff_eq] at hpa
        exact hpa
      have hcond : a.kind = api2.kind ∧ a.apiVersion = api2.apiVersion := by
        rw [hk, hv]
        exact hak
      have hhead : updateApisList api2 (a :: t) = api2 :: updateApisList api2 t := by
        simp [updateApisList, hcond]
      have hp2 : (api2.kind == k && api2.apiVersion == v) = true := by
        simp [hk, hv]
      rw [hhead, getApiByKindList_cons, if_pos hp2]
    · rw [getApiByKindList_cons, if_neg hpa] at hfind
      have hcond : ¬(a.kind = api2.kind ∧ a.apiVersion = api2.apiVersion) := by
        intro hc
        apply hpa
        simp [hc.1, hc.2, hk, hv]
      have hhead : updateApisList api2 (a :: t) = a :: updateApisList api2 t := by
        simp only [updateApisList, List.map_cons, if_neg hcond]
      rw [hhead, getApiByKindList_cons, if_neg hpa]
      exact ih hfind

theorem getApiByKindList_props (l : List KubeApi) (k v : String) (api : KubeApi)
    (h : getApiByKindList l k v = some api) : api.kind = k ∧ api.apiVersion = v := by
  induction l with
  | nil => simp [getApiByKindList] at h
  | cons a t ih =>
    rw [getApiByKindList_cons] at h
    by_cases hpa : (a.kind == k && a.apiVersion == v) = true
    · rw [if_pos hpa] at h
      have ha : a = api := by
        injection h
      subst ha
      simp only [Bool.and_eq_true, beq_iff_eq] at hpa
      exact hpa
    · rw [if_neg hpa] at h
      exact ih h

theorem getApiByKind_of_find (st : ApiManagerState) (k v : String) (api : KubeApi)
    (h : st.getApiByKind k v = some api) : api.kind = k ∧ api.apiVersion = v :=
  getApiByKindList_props st.apis k v api h

theorem getMessage_data_state (st : ApiManagerState) (ev : KubeWatchEvent)
    (o : KubeJsonApiData) (api : KubeApi)
    (ho : eventObject ev = some o) (hapi : st.getApiByKind o.kind o.apiVersion = some api) :
    (getMessage st ev).state = st.updateApi
      ((api.setResourceVersion (ensureObjectSelfLink api o).metadata.ns
          (ensureObjectSelfLink api o).metadata.resourceVersion).setResourceVersion
        "" (ensureObjectSelfLink api o).metadata.resourceVersion) := by
  cases ev with
  | added obj =>
    have hobj : obj = o := by
      simpa [eventObject] using ho
    subst hobj
    simp [getMessage, hapi]
  | modified obj =>
    have hobj : obj = o := by
      simpa [eventObject] using ho
    subst hobj
    simp [getMessage, hapi]
  | deleted obj =>
    have hobj : obj = o := by
      simpa [eventObject] using ho
    subst hobj
    simp [getMessage, hapi]
  | errorEvent e => simp [eventObject] at ho
  | streamEnd u => simp [eventObject] at ho
  | unknown t => simp [eventObject] at ho

end KubeWatch

/-! ## Claim C3: data events update both resource-version cursors -/

namespace KubeWatch

/-- C3: after `getMessage` processes a data event (ADDED/MODIFIED/DELETED)
whose object has a registered handler, the handler's resource-version cursor
for the object's namespace and the aggregate empty-string cursor both equal
the event object's resourceVersion. -/
theorem getMessage_updates_cursors_c3 (st : ApiManagerState) (ev : KubeWatchEvent)
    (o : KubeJsonApiData) (api : KubeApi)
    (ho : eventObject ev = some o)
    (hapi : st.getApiByKind o.kind o.apiVersion = some api) :
    ∃ api2, (getMessage st ev).state.getApiByKind o.kind o.apiVersion = some api2 ∧
      api2.getResourceVersion o.metadata.ns = some o.metadata.resourceVersion ∧
      api2.getResourceVersion "" = some o.metadata.resourceVersion := by
  have hprops := getApiByKind_of_find st o.kind o.apiVersion api hapi
  have hns := ensureObjectSelfLink_ns api o
  have hrv := ensureObjectSelfLink_resourceVersion api o
  refine ⟨(api.setResourceVersion (ensureObjectSelfLink api o).metadata.ns
      (ensureObjectSelfLink api o).metadata.resourceVersion).setResourceVersion
      "" (ensureObjectSelfLink api o).metadata.resourceVersion, ?_, ?_, ?_⟩
  · rw [getMessage_data_state st ev o api ho hapi]
    refine getApiByKindList_updateApisList st.apis api _ o.kind o.apiVersion hapi ?_ ?_
    · exact hprops.1
    · exact hprops.2
  · simp only [KubeApi.getResourceVersion, KubeApi.setResourceVersion]
    by_cases hcase : o.metadata.ns = ""
    · rw [hns, hrv, hcase, getRV_setRV_self]
    · rw [hns, hrv, getRV_setRV_ne _ _ _ _ hcase, getRV_setRV_self]
  · simp only [KubeApi.getResourceVersion, KubeApi.setResourceVersion]
    rw [hrv, getRV_setRV_self]

/-- C3 witness: a MODIFIED Pod event with resourceVersion "105" in namespace
"default", against a registry holding a Pod handler, sets both cursors to
"105". -/
theorem getMessage_updates_cursors_c3_witness :
    ∃ api2, (getMessage ⟨[⟨"Pod", "v1", "/api/v1/pods", true, []⟩], []⟩
        (KubeWatchEvent.modified ⟨"Pod", "v1", ⟨"a", "default", "105", none⟩⟩)).state.getApiByKind
        "Pod" "v1" = some api2 ∧
      api2.getResourceVersion "default" = some "105" ∧
      api2.getResourceVersion "" = some "105" :=
  getMessage_updates_cursors_c3 ⟨[⟨"Pod", "v1", "/api/v1/pods", true, []⟩], []⟩
    (KubeWatchEvent.modified ⟨"Pod", "v1", ⟨"a", "default", "105", none⟩⟩)
    ⟨"Pod", "v1", ⟨"a", "default", "105", none⟩⟩
    ⟨"Pod", "v1", "/api/v1/pods", true, []⟩ rfl (by decide)

end KubeWatch

/-! ## Claims C4, C7, C9: chunk processing and message emission -/

namespace KubeWatch

theorem validRecords_nil (parse : String → Option KubeWatchEvent) :
    validRecords parse [] = [] := rfl

theorem validRecords_cons (parse : String → Option KubeWatchEvent) (l : String)
    (ls : List String) :
    validRecords parse (l :: ls) =
      if (parse l).isSome then l :: validRecords parse ls else validRecords parse ls := by
  by_cases h : (parse l).isSome <;> simp [validRecords, List.filter, h]

theorem processRecords_counts (parse : String → Option KubeWatchEvent)
    (st : ApiManagerState) (lines : List String) :
    (processRecords parse st lines).emitted.length = (validRecords parse lines).length ∧
      (processRecords parse st lines).failures
        = lines.length - (validRecords parse lines).length := by
  induction lines generalizing st with
  | nil => simp [processRecords, validRecords]
  | cons l ls ih =>
    have hlen : (validRecords parse ls).length ≤ ls.length := List.length_filter_le _ ls
    cases hp : parse l with
    | some ev =>
      have hv : validRecords parse (l :: ls) = l :: validRecords parse ls := by
        rw [validRecords_cons, if_pos (by simp [hp])]
      have ih2 := ih (getMessage st ev).state
      rw [hv]
      simp only [processRecords, hp, List.length_cons]
      constructor
      · simp [ih2.1]
      · rw [ih2.2]
        omega
    | none =>
      have hv : validRecords parse (l :: ls) = validRecords parse ls := by
        rw [validRecords_cons, if_neg (by simp [hp])]
      have ih2 := ih st
      rw [hv]
      simp only [processRecords, hp, List.length_cons]
      constructor
      · exact ih2.1
      · rw [ih2.2]
        omega

theorem processRecords_skip_invalid (parse : String → Option KubeWatchEvent)
    (st : ApiManagerState) (lines : List String) :
    (processRecords parse st lines).emitted
        = (processRecords parse st (validRecords parse lines)).emitted ∧
      (processRecords parse st lines).state
        = (processRecords parse st (validRecords parse lines)).state := by
  induction lines generalizing st with
  | nil => simp [processRecords, validRecords]
  | cons l ls ih =>
    cases hp : parse l with
    | some ev =>
      have hv : validRecords parse (l :: ls) = l :: validRecords parse ls := by
        rw [validRecords_cons, if_pos (by simp [hp])]
      have ih2 := ih (getMessage st ev).state
      rw [hv]
      simp only [processRecords, hp]
      exact ⟨by rw [ih2.1], by rw [ih2.2]⟩
    | none =>
      have hv : validRecords parse (l :: ls) = validRecords parse ls := by
        rw [validRecords_cons, if_neg (by simp [hp])]
      have ih2 := ih st
      rw [hv]
      simp only [processRecords, hp]
      exact ⟨ih2.1, ih2.2⟩

/-- C4: for every non-empty chunk, the handler emits exactly one message per
record the parser accepts (in their relative order: the emitted list equals
the one produced by processing the valid records alone), reports one failure
per rejected record, and a parse failure never aborts processing of the
remaining records. -/
theorem handleStreamEvent_valid_invalid_c4 (parse : String → Option KubeWatchEvent)
    (st : ApiManagerState) (chunk : String) (h : chunk ≠ "") :
    (handleStreamEvent parse st chunk).emitted.length
        = (validRecords parse (splitLines (trimString chunk))).length ∧
      (handleStreamEvent parse st chunk).failures
        = (splitLines (trimString chunk)).length
            - (validRecords parse (splitLines (trimString chunk))).length ∧
      (handleStreamEvent parse st chunk).emitted
        = (processRecords parse st
            (validRecords parse (splitLines (trimString chunk)))).emitted := by
  rw [handleStreamEvent, if_neg h]
  exact ⟨(processRecords_counts parse st _).1, (processRecords_counts parse st _).2,
    (processRecords_skip_invalid parse st _).1⟩

/-- C4 witness: the chunk `"e\nbad\ne"` under a parser accepting only `"e"`
yields two emitted messages and one reported failure. -/
theorem handleStreamEvent_valid_invalid_c4_witness :
    (handleStreamEvent (fun s => if s = "e" then some (KubeWatchEvent.streamEnd "u") else none)
        ⟨[], []⟩ "e\nbad\ne").emitted.length
      = (validRecords (fun s => if s = "e" then some (KubeWatchEvent.streamEnd "u") else none)
          (splitLines (trimString "e\nbad\ne"))).length ∧
    (handleStreamEvent (fun s => if s = "e" then some (KubeWatchEvent.streamEnd "u") else none)
        ⟨[], []⟩ "e\nbad\ne").failures
      = (splitLines (trimString "e\nbad\ne")).length
          - (validRecords (fun s => if s = "e" then some (KubeWatchEvent.streamEnd "u") else none)
              (splitLines (trimString "e\nbad\ne"))).length ∧
    (handleStreamEvent (fun s => if s = "e" then some (KubeWatchEvent.streamEnd "u") else none)
        ⟨[], []⟩ "e\nbad\ne").emitted
      = (processRecords (fun s => if s = "e" then some (KubeWatchEvent.streamEnd "u") else none)
          ⟨[], []⟩
          (validRecords (fun s => if s = "e" then some (KubeWatchEvent.streamEnd "u") else none)
            (splitLines (trimString "e\nbad\ne")))).emitted :=
  handleStreamEvent_valid_invalid_c4 _ _ "e\nbad\ne" (by decide)

theorem processRecords_singleton_emitted (parse : String → Option KubeWatchEvent)
    (st : ApiManagerState) (l : String) (ev : KubeWatchEvent) (h : parse l = some ev) :
    (processRecords parse st [l]).emitted = [(getMessage st ev).message] := by
  simp [processRecords, h]

theorem getMessage_no_handler (st : ApiManagerState) (ev : KubeWatchEvent)
    (o : KubeJsonApiData) (ho : eventObject ev = some o)
    (hapi : st.getApiByKind o.kind o.apiVersion = none) :
    (getMessage st ev).message = ⟨some ev, none, none, none⟩ := by
  cases ev with
  | added obj =>
    have hobj : obj = o := by simpa [eventObject] using ho
    subst hobj
    simp [getMessage, hapi]
  | modified obj =>
    have hobj : obj = o := by simpa [eventObject] using ho
    subst hobj
    simp [getMessage, hapi]
  | deleted obj =>
    have hobj : obj = o := by simpa [eventObject] using ho
    subst hobj
    simp [getMessage, hapi]
  | errorEvent e => simp [eventObject] at ho
  | streamEnd u => simp [eventObject] at ho
  | unknown t => simp [eventObject] at ho

/-- C7: a data event whose object's kind and apiVersion resolve to no
registered handler still produces a message carrying the raw event with no
handler or store references, and that message is emitted to consumers. -/
theorem no_handler_still_emitted_c7 (st : ApiManagerState)
    (parse : String → Option KubeWatchEvent) (chunk l : String) (ev : KubeWatchEvent)
    (o : KubeJsonApiData)
    (ho : eventObject ev = some o)
    (hapi : st.getApiByKind o.kind o.apiVersion = none)
    (hch : chunk ≠ "")
    (hsplit : splitLines (trimString chunk) = [l])
    (hparse : parse l = some ev) :
    (getMessage st ev).message = ⟨some ev, none, none, none⟩ ∧
      (handleStreamEvent parse st chunk).emitted = [⟨some ev, none, none, none⟩] := by
  have hmsg := getMessage_no_handler st ev o ho hapi
  refine ⟨hmsg, ?_⟩
  rw [handleStreamEvent, if_neg hch, hsplit,
    processRecords_singleton_emitted parse st l ev hparse, hmsg]

/-- C7 witness: an ADDED event for an unregistered kind is emitted with no
handler references. -/
theorem no_handler_still_emitted_c7_witness :
    (getMessage ⟨[], []⟩
        (KubeWatchEvent.added ⟨"Pod", "v1", ⟨"a", "default", "10", none⟩⟩)).message
      = ⟨some (KubeWatchEvent.added ⟨"Pod", "v1", ⟨"a", "default", "10", none⟩⟩),
          none, none, none⟩ ∧
    (handleStreamEvent
        (fun s => if s = "x"
          then some (KubeWatchEvent.added ⟨"Pod", "v1", ⟨"a", "default", "10", none⟩⟩)
          else none)
        ⟨[], []⟩ "x").emitted
      = [⟨some (KubeWatchEvent.added ⟨"Pod", "v1", ⟨"a", "default", "10", none⟩⟩),
          none, none, none⟩] :=
  no_handler_still_emitted_c7 ⟨[], []⟩ _ "x" "x"
    (KubeWatchEvent.added ⟨"Pod", "v1", ⟨"a", "default", "10", none⟩⟩)
    ⟨"Pod", "v1", ⟨"a", "default", "10", none⟩⟩
    rfl (by decide) (by decide) (by decide) (by decide)

theorem getMessage_end_or_unknown (st : ApiManagerState) (ev : KubeWatchEvent)
    (hev : isEndOrUnknownTag ev = true) :
    (getMessage st ev).message = emptyMessage ∧ (getMessage st ev).state = st := by
  cases ev with
  | added obj => simp [isEndOrUnknownTag] at hev
  | modified obj => simp [isEndOrUnknownTag] at hev
  | deleted obj => simp [isEndOrUnknownTag] at hev
  | errorEvent e => simp [isEndOrUnknownTag] at hev
  | streamEnd u => exact ⟨rfl, rfl⟩
  | unknown t => exact ⟨rfl, rfl⟩

/-- C9: a record whose type is STREAM_END or an unrecognized tag produces the
empty message (no data, no error, no handler references), and this empty
message is still emitted to consumers rather than suppressed. -/
theorem empty_message_still_emitted_c9 (st : ApiManagerState)
    (parse : String → Option KubeWatchEvent) (chunk l : String) (ev : KubeWatchEvent)
    (hev : isEndOrUnknownTag ev = true)
    (hch : chunk ≠ "")
    (hsplit : splitLines (trimString chunk) = [l])
    (hparse : parse l = some ev) :
    (getMessage st ev).message = emptyMessage ∧
      (handleStreamEvent parse st chunk).emitted = [emptyMessage] := by
  have hmsg := (getMessage_end_or_unknown st ev hev).1
  refine ⟨hmsg, ?_⟩
  rw [handleStreamEvent, if_neg hch, hsplit,
    processRecords_singleton_emitted parse st l ev hparse, hmsg]

/-- C9 witness: a STREAM_END record produces and emits the empty message. -/
theorem empty_message_still_emitted_c9_witness :
    (getMessage ⟨[], []⟩ (KubeWatchEvent.streamEnd "u")).message = emptyMessage ∧
      (handleStreamEvent
          (fun s => if s = "x" then some (KubeWatchEvent.streamEnd "u") else none)
          ⟨[], []⟩ "x").emitted = [emptyMessage] :=
  empty_message_still_emitted_c9 ⟨[], []⟩ _ "x" "x" (KubeWatchEvent.streamEnd "u")
    (by decide) (by decide) (by decide) (by decide)

end KubeWatch

/-! ## Claims C1, C5, C8, C10: connect, request payload, stream-end handling -/

namespace KubeWatch

/-- C1 (code bug): on a transport failure the `connect` catch block only logs
"connection error" — no reconnect is ever scheduled and no terminal
connectivity error is surfaced, for any payload and fetch outcome — although
the source declares `reconnectTimeoutMs = 5000` and
`maxReconnectsOnError = 10`, which are never read. -/
theorem connect_never_schedules_reconnect_c1 :
    connect ["u"] false = ⟨false, true, true, none, false⟩ ∧
      (∀ payload fetchOk, (connect payload fetchOk).retryDelayMs = none ∧
        (connect payload fetchOk).surfacedTerminalError = false) ∧
      reconnectTimeoutMs = 5000 ∧ maxReconnectsOnError = 10 := by
  refine ⟨rfl, ?_, rfl, rfl⟩
  intro payload fetchOk
  rw [connect]
  by_cases h : payload.isEmpty <;> cases fetchOk <;> simp [h]

/-- C5: on each (re)connect the request payload contains, per active handler,
nothing when the caller is not authorized for that kind, one watch URL per
currently-permitted namespace when namespace-scoped, and exactly one
cluster-scoped watch URL otherwise; the payload is their concatenation. -/
theorem getRequestPayload_targets_c5 (isAllowedResource : String → Bool)
    (contextNamespaces : List String) (apis : List KubeApi) (api : KubeApi) :
    getRequestPayload isAllowedResource contextNamespaces apis
        = (apis.map (specWatchTargets isAllowedResource contextNamespaces)).flatten ∧
      (isAllowedResource api.kind = false →
        specWatchTargets isAllowedResource contextNamespaces api = []) ∧
      (isAllowedResource api.kind = true → api.isNamespaced = true →
        specWatchTargets isAllowedResource contextNamespaces api
          = contextNamespaces.map (fun n => api.getWatchUrl (some n))) ∧
      (isAllowedResource api.kind = true → api.isNamespaced = false →
        specWatchTargets isAllowedResource contextNamespaces api = [api.getWatchUrl none]) := by
  refine ⟨?_, ?_, ?_, ?_⟩
  · rw [getRequestPayload]
    congr 1
    apply List.map_congr_left
    intro a _
    cases ha : isAllowedResource a.kind <;> cases hn : a.isNamespaced <;>
      simp [specWatchTargets, ha, hn]
  · intro h
    simp [specWatchTargets, h]
  · intro h1 h2
    simp [specWatchTargets, h1, h2]
  · intro h1 h2
    simp [specWatchTargets, h1, h2]

/-- C5 witness: with namespaces `["a", "b"]`, a namespaced Pod handler
expands to two URLs, a cluster-scoped Node handler to one, and an
unauthorized Secret handler to none. -/
theorem getRequestPayload_targets_c5_witness :
    getRequestPayload (fun k => !(k == "Secret")) ["a", "b"]
        [⟨"Pod", "v1", "/api/v1/pods", true, []⟩, ⟨"Node", "v1", "/api/v1/nodes", false, []⟩,
          ⟨"Secret", "v1", "/api/v1/secrets", true, []⟩]
        = ([⟨"Pod", "v1", "/api/v1/pods", true, []⟩, ⟨"Node", "v1", "/api/v1/nodes", false, []⟩,
            ⟨"Secret", "v1", "/api/v1/secrets", true, []⟩].map
            (specWatchTargets (fun k => !(k == "Secret")) ["a", "b"])).flatten ∧
      specWatchTargets (fun k => !(k == "Secret")) ["a", "b"]
          ⟨"Secret", "v1", "/api/v1/secrets", true, []⟩ = [] ∧
      specWatchTargets (fun k => !(k == "Secret")) ["a", "b"]
          ⟨"Pod", "v1", "/api/v1/pods", true, []⟩
        = ["a", "b"].map
            (fun n => KubeApi.getWatchUrl ⟨"Pod", "v1", "/api/v1/pods", true, []⟩ (some n)) ∧
      specWatchTargets (fun k => !(k == "Secret")) ["a", "b"]
          ⟨"Node", "v1", "/api/v1/nodes", false, []⟩
        = [KubeApi.getWatchUrl ⟨"Node", "v1", "/api/v1/nodes", false, []⟩ none] :=
  ⟨(getRequestPayload_targets_c5 (fun k => !(k == "Secret")) ["a", "b"]
      [⟨"Pod", "v1", "/api/v1/pods", true, []⟩, ⟨"Node", "v1", "/api/v1/nodes", false, []⟩,
        ⟨"Secret", "v1", "/api/v1/secrets", true, []⟩]
      ⟨"Pod", "v1", "/api/v1/pods", true, []⟩).1,
    (getRequestPayload_targets_c5 (fun k => !(k == "Secret")) ["a", "b"] []
      ⟨"Secret", "v1", "/api/v1/secrets", true, []⟩).2.1 (by decide),
    (getRequestPayload_targets_c5 (fun k => !(k == "Secret")) ["a", "b"] []
      ⟨"Pod", "v1", "/api/v1/pods", true, []⟩).2.2.1 (by decide) (by decide),
    (getRequestPayload_targets_c5 (fun k => !(k == "Secret")) ["a", "b"] []
      ⟨"Node", "v1", "/api/v1/nodes", false, []⟩).2.2.2 (by decide) (by decide)⟩

/-- C8: while the stream-end resource-version refresh keeps failing and at
least one subscriber remains, every handling attempt is reached, attempts the
refresh, does not reconnect, and schedules the next retry after exactly
1000 ms — with no attempt cap and never abandoning the handling. -/
theorem streamEnd_unbounded_retry_c8 (getApi : String → Option KubeApi) (url : String)
    (refreshOk : Nat → Bool) (subs : Nat → Nat) (api : KubeApi) (n : Nat)
    (hapi : getApi (parseApiBase url) = some api)
    (hfail : ∀ k, k ≤ n → refreshOk k = false)
    (hsubs : ∀ k, k ≤ n → 0 < subs k) :
    attemptReached getApi url refreshOk subs n = true ∧
      streamEndAttempt getApi url refreshOk subs n = ⟨true, false, some 1000⟩ := by
  induction n with
  | zero =>
    refine ⟨rfl, ?_⟩
    rw [streamEndAttempt, onServerStreamEnd, hapi, hfail 0 (le_refl 0)]
    simp [hsubs 0 (le_refl 0)]
  | succ m ih =>
    have ihm := ih (fun k hk => hfail k (le_trans hk (Nat.le_succ m)))
      (fun k hk => hsubs k (le_trans hk (Nat.le_succ m)))
    constructor
    · rw [attemptReached, ihm.1, ihm.2]
      rfl
    · rw [streamEndAttempt, onServerStreamEnd, hapi, hfail (m + 1) (le_refl _)]
      simp [hsubs (m + 1) (le_refl _)]

/-- C8 witness: with a constantly failing refresh and one subscriber, the
fourth attempt is still reached and schedules another 1000 ms retry. -/
theorem streamEnd_unbounded_retry_c8_witness :
    attemptReached (fun _ => some ⟨"Pod", "v1", "/api/v1/pods", true, []⟩) "u"
        (fun _ => false) (fun _ => 1) 3 = true ∧
      streamEndAttempt (fun _ => some ⟨"Pod", "v1", "/api/v1/pods", true, []⟩) "u"
        (fun _ => false) (fun _ => 1) 3 = ⟨true, false, some 1000⟩ :=
  streamEnd_unbounded_retry_c8 _ "u" _ _ ⟨"Pod", "v1", "/api/v1/pods", true, []⟩ 3
    rfl (fun _ _ => rfl) (fun _ _ => Nat.one_pos)

/-- C10: a STREAM_END whose URL resolves to no registered handler performs no
refresh, no reconnect, and schedules no retry; no later attempt is ever
reached, so the watch target is never resumed. -/
theorem streamEnd_no_handler_ignored_c10 (getApi : String → Option KubeApi) (url : String)
    (refreshOk : Nat → Bool) (subs : Nat → Nat)
    (hapi : getApi (parseApiBase url) = none) :
    (∀ n, streamEndAttempt getApi url refreshOk subs n = ⟨false, false, none⟩) ∧
      (∀ n, 0 < n → attemptReached getApi url refreshOk subs n = false) := by
  have hstep : ∀ n, streamEndAttempt getApi url refreshOk subs n = ⟨false, false, none⟩ := by
    intro n
    rw [streamEndAttempt, onServerStreamEnd, hapi]
  refine ⟨hstep, ?_⟩
  have hind : ∀ n, attemptReached getApi url refreshOk subs (n + 1) = false := by
    intro n
    induction n with
    | zero =>
      rw [attemptReached, hstep 0]
      rfl
    | succ m ih =>
      rw [attemptReached, ih]
      rfl
  intro n hn
  cases n with
  | zero => omega
  | succ m => exact hind m

/-- C10 witness: with no handler registered for the URL, the first handling
does nothing and the second attempt is never reached. -/
theorem streamEnd_no_handler_ignored_c10_witness :
    (∀ n, streamEndAttempt (fun _ => (none : Option KubeApi)) "u"
        (fun _ => false) (fun _ => 1) n = ⟨false, false, none⟩) ∧
      (∀ n, 0 < n → attemptReached (fun _ => (none : Option KubeApi)) "u"
        (fun _ => false) (fun _ => 1) n = false) :=
  streamEnd_no_handler_ignored_c10 _ "u" _ _ rfl

end KubeWatch
